import Mathlib

/-!
Shallow embedding of `mysteriouspants-throttle` (`src/lib.rs`).

Time is modelled in nanoseconds: `Instant` and `Duration` are natural
numbers (Rust's `Duration` is unsigned).  `Throttle::acquire` reads the
monotone clock twice, once to measure elapsed time and once (after any
sleep) to store the new `previous_invocation`; the embedding takes both
readings as explicit arguments `now` and `post`.  Rust's `Duration`
subtraction panics on underflow, so it is modelled by a checked
subtraction and `acquire` returns an `Option`; `Instant::duration_since`
saturates to zero, which truncated `Nat` subtraction matches exactly.
The `f32` arithmetic of `new_tps_throttle` is idealized as exact rational
arithmetic, with the saturating semantics of Rust's `as u64` cast made
explicit.
-/

/-- Clock readings, in nanoseconds since some epoch (Rust `Instant`). -/
abbrev Instant : Type := Nat

/-- Durations, in nanoseconds (Rust `Duration`, which is unsigned). -/
abbrev Duration : Type := Nat

/-- Rust `Duration::from_millis`. -/
def Duration.fromMillis (m : Nat) : Duration := m * 1000000

/-- Rust `Duration::from_secs`. -/
def Duration.fromSecs (s : Nat) : Duration := s * 1000000000

/-- Rust `Duration - Duration`, which panics (here: `none`) on underflow. -/
def durationSub (a b : Duration) : Option Duration :=
  if b ≤ a then some (a - b) else none

/-- The `ThrottleState` enum of `src/lib.rs`. -/
inductive ThrottleState : Type where
  | Uninitialized : ThrottleState
  | Initialized (previous_invocation : Instant) : ThrottleState
deriving DecidableEq

/-- The `Throttle<TArg>` struct: a delay-computing function (the boxed
closure `Fn(TArg, Duration) -> Duration`) and the current state. -/
structure Throttle (TArg : Type) : Type where
  delay_calculator : TArg → Duration → Duration
  state : ThrottleState

/-- `Throttle::new_variable_throttle`. -/
def Throttle.new_variable_throttle {TArg : Type}
    (delay_calculator : TArg → Duration → Duration) : Throttle TArg :=
  Throttle.mk delay_calculator ThrottleState.Uninitialized

/-- Rust `u64::MAX`. -/
def u64Max : Nat := 2 ^ 64 - 1

/-- The `wait_for_millis` computation of `Throttle::new_tps_throttle`:
`((1.0 / tps) * 1000.0) as u64`, with `f32` arithmetic idealized as exact
rational arithmetic.  The `as u64` cast truncates toward zero and
saturates: `+inf` (the result of `1.0 / 0.0`) goes to `u64::MAX`,
negative values go to `0`, and values above `u64::MAX` go to `u64::MAX`. -/
def tpsWaitMillis (tps : ℚ) : Nat :=
  if tps = 0 then u64Max
  else if tps < 0 then 0
  else min (⌊(1 / tps) * 1000⌋).toNat u64Max

/-- `Throttle::new_tps_throttle`. -/
def Throttle.new_tps_throttle (TArg : Type) (tps : ℚ) : Throttle TArg :=
  let wait_for_millis := tpsWaitMillis tps
  Throttle.mk (fun _ _ => Duration.fromMillis wait_for_millis)
    ThrottleState.Uninitialized

/-- One call to `Throttle::acquire`.  `now` is the reading of the
`Instant::now()` call that measures elapsed time; `post` is the reading
of the `Instant::now()` calls that store the new `previous_invocation`
(taken after any sleep; in the `Uninitialized` branch only that second
kind of reading occurs).  Returns the updated throttle together with the
duration passed to `sleep` (`0` when no sleep was performed), or `none`
when the `Duration` subtraction would panic. -/
def Throttle.acquire {TArg : Type} (t : Throttle TArg) (arg : TArg)
    (now post : Instant) : Option (Throttle TArg × Duration) :=
  match t.state with
  | ThrottleState.Initialized previous_invocation =>
    let time_since_previous_acquire := now - previous_invocation
    let delay_time := t.delay_calculator arg time_since_previous_acquire
    if delay_time > Duration.fromSecs 0 ∧
        delay_time > time_since_previous_acquire then
      match durationSub delay_time time_since_previous_acquire with
      | none => none
      | some additional_delay_required =>
        some (Throttle.mk t.delay_calculator (ThrottleState.Initialized post),
          if additional_delay_required > Duration.fromSecs 0 then
            additional_delay_required
          else 0)
    else
      some (Throttle.mk t.delay_calculator (ThrottleState.Initialized post), 0)
  | ThrottleState.Uninitialized =>
    some (Throttle.mk t.delay_calculator (ThrottleState.Initialized post), 0)

/-- A sequence of `acquire` calls: each step supplies the argument and the
two clock readings of that call.  Returns the final throttle and the list
of slept durations, or `none` if some call panicked. -/
def Throttle.runAcquires {TArg : Type} :
    Throttle TArg → List (TArg × Instant × Instant) →
      Option (Throttle TArg × List Duration)
  | t, [] => some (t, [])
  | t, (arg, now, post) :: rest =>
    match t.acquire arg now post with
    | none => none
    | some (t1, slept) =>
      match t1.runAcquires rest with
      | none => none
      | some (t2, slepts) => some (t2, slept :: slepts)

/-- The elapsed time the next `acquire` would measure at clock reading
`now`: `Instant::now().duration_since(previous_invocation)`
(`duration_since` saturates to zero when the other instant is later). -/
def Throttle.elapsedSince {TArg : Type} (t : Throttle TArg)
    (now : Instant) : Option Duration :=
  match t.state with
  | ThrottleState.Initialized previous_invocation =>
    some (now - previous_invocation)
  | ThrottleState.Uninitialized => none

/-- `Throttle::acquire`, instrumented: additionally returns the list of
inputs on which `delay_calculator` was invoked, one entry per invocation,
in order.  Identical to `Throttle.acquire` otherwise. -/
def Throttle.acquireTraced {TArg : Type} (t : Throttle TArg) (arg : TArg)
    (now post : Instant) :
    Option ((Throttle TArg × Duration) × List (TArg × Duration)) :=
  match t.state with
  | ThrottleState.Initialized previous_invocation =>
    let time_since_previous_acquire := now - previous_invocation
    let delay_time := t.delay_calculator arg time_since_previous_acquire
    let calls := [(arg, time_since_previous_acquire)]
    if delay_time > Duration.fromSecs 0 ∧
        delay_time > time_since_previous_acquire then
      match durationSub delay_time time_since_previous_acquire with
      | none => none
      | some additional_delay_required =>
        some ((Throttle.mk t.delay_calculator (ThrottleState.Initialized post),
          if additional_delay_required > Duration.fromSecs 0 then
            additional_delay_required
          else 0), calls)
    else
      some ((Throttle.mk t.delay_calculator (ThrottleState.Initialized post),
        0), calls)
  | ThrottleState.Uninitialized =>
    some ((Throttle.mk t.delay_calculator (ThrottleState.Initialized post),
      0), [])

/-- Helper: every successful `acquire` yields the throttle with the same
delay calculator and state `Initialized post`. -/
theorem Throttle.acquire_result_shape {TArg : Type} (t : Throttle TArg)
    (arg : TArg) (now post : Instant) (t1 : Throttle TArg)
    (slept : Duration) (h : t.acquire arg now post = some (t1, slept)) :
    t1 = Throttle.mk t.delay_calculator (ThrottleState.Initialized post) := by
  unfold Throttle.acquire at h
  rcases hs : t.state with _ | p
  · rw [hs] at h
    simp only [Option.some.injEq, Prod.mk.injEq] at h
    exact h.1.symm
  · rw [hs] at h
    simp only at h
    split at h
    · rcases hd : durationSub (t.delay_calculator arg (now - p)) (now - p) with
        _ | add
      · rw [hd] at h
        exact absurd h (by simp)
      · rw [hd] at h
        simp only [Option.some.injEq, Prod.mk.injEq] at h
        exact h.1.symm
    · simp only [Option.some.injEq, Prod.mk.injEq] at h
      exact h.1.symm

/-- C1: on a freshly constructed throttle (state `Uninitialized`), `acquire`
records the clock reading as `previous_invocation`, transitions to
`Initialized`, and performs no sleep, for every delay function and every
argument. -/
theorem acquire_uninitialized_first_call_free {TArg : Type}
    (t : Throttle TArg) (arg : TArg) (now post : Instant)
    (h : t.state = ThrottleState.Uninitialized) :
    t.acquire arg now post =
      some (Throttle.mk t.delay_calculator (ThrottleState.Initialized post),
        0) := by
  unfold Throttle.acquire
  rw [h]

/-- Witness for C1 at a concrete throttle and concrete clock readings. -/
theorem acquire_uninitialized_first_call_free_witness :
    (Throttle.new_variable_throttle (fun (_ : Nat) d => d + 1)).acquire
        7 3 5 =
      some (Throttle.mk (fun (_ : Nat) d => d + 1)
        (ThrottleState.Initialized 5), 0) :=
  acquire_uninitialized_first_call_free
    (Throttle.new_variable_throttle (fun (_ : Nat) d => d + 1)) 7 3 5 rfl

/-- C2: in state `Initialized p`, with elapsed `e = now - p` and target
`d = delay_calculator arg e`, `acquire` sleeps exactly `d - e` (a positive
amount) precisely when `0 < d` and `e < d`, and performs no sleep when
`d = 0` or `d ≤ e`. -/
theorem acquire_initialized_sleep {TArg : Type} (t : Throttle TArg)
    (arg : TArg) (now post p : Instant)
    (h : t.state = ThrottleState.Initialized p) :
    t.acquire arg now post =
      some (Throttle.mk t.delay_calculator (ThrottleState.Initialized post),
        if 0 < t.delay_calculator arg (now - p) ∧
            now - p < t.delay_calculator arg (now - p) then
          t.delay_calculator arg (now - p) - (now - p)
        else 0) ∧
    (0 < t.delay_calculator arg (now - p) ∧
        now - p < t.delay_calculator arg (now - p) →
      0 < t.delay_calculator arg (now - p) - (now - p)) ∧
    (t.delay_calculator arg (now - p) = 0 ∨
        t.delay_calculator arg (now - p) ≤ now - p →
      (if 0 < t.delay_calculator arg (now - p) ∧
          now - p < t.delay_calculator arg (now - p) then
        t.delay_calculator arg (now - p) - (now - p)
      else 0) = 0) := by
  unfold Throttle.acquire
  rw [h]
  have h0 : Duration.fromSecs 0 = 0 := rfl
  simp only [h0, gt_iff_lt]
  by_cases hg : 0 < t.delay_calculator arg (now - p) ∧
      now - p < t.delay_calculator arg (now - p)
  · have hsub : durationSub (t.delay_calculator arg (now - p)) (now - p) =
        some (t.delay_calculator arg (now - p) - (now - p)) := by
      unfold durationSub
      rw [if_pos (Nat.le_of_lt hg.2)]
    have hpos : 0 < t.delay_calculator arg (now - p) - (now - p) :=
      Nat.sub_pos_of_lt hg.2
    refine ⟨?_, fun _ => hpos, ?_⟩
    · rw [if_pos hg, hsub, if_pos hg]
      simp [hpos]
    · intro hc
      rcases hc with hc | hc
      · exact absurd hg.1 (by rw [hc]; exact Nat.lt_irrefl 0)
      · exact absurd hc (not_le_of_lt hg.2)
  · refine ⟨?_, fun hcon => absurd hcon hg, fun _ => if_neg hg⟩
    rw [if_neg hg, if_neg hg]

/-- Witness for C2: a throttle in state `Initialized 0` with constant
target 10 ns, acquired at `now = 3`, sleeps `10 - 3 = 7` ns. -/
theorem acquire_initialized_sleep_witness :
    (Throttle.mk (fun (_ : Unit) _ => 10)
        (ThrottleState.Initialized 0)).acquire () 3 20 =
      some (Throttle.mk (fun (_ : Unit) _ => 10)
        (ThrottleState.Initialized 20),
        if 0 < (10 : Nat) ∧ 3 - 0 < (10 : Nat) then 10 - (3 - 0) else 0) ∧
    (0 < (10 : Nat) ∧ 3 - 0 < (10 : Nat) → 0 < 10 - (3 - 0)) ∧
    ((10 : Nat) = 0 ∨ (10 : Nat) ≤ 3 - 0 →
      (if 0 < (10 : Nat) ∧ 3 - 0 < (10 : Nat) then 10 - (3 - 0) else 0) = 0) :=
  acquire_initialized_sleep
    (Throttle.mk (fun (_ : Unit) _ => 10) (ThrottleState.Initialized 0))
    () 3 20 0 rfl

/-- C3: `acquire` never panics: for every delay function, every argument,
every state and all clock readings it returns `some`; the `Duration`
subtraction is reached only under the guard, where it cannot underflow. -/
theorem acquire_never_panics {TArg : Type} (t : Throttle TArg) (arg : TArg)
    (now post : Instant) : (t.acquire arg now post).isSome = true := by
  unfold Throttle.acquire
  rcases hs : t.state with _ | p
  · rfl
  · simp only
    by_cases hg : t.delay_calculator arg (now - p) > Duration.fromSecs 0 ∧
        t.delay_calculator arg (now - p) > now - p
    · have hsub : durationSub (t.delay_calculator arg (now - p)) (now - p) =
          some (t.delay_calculator arg (now - p) - (now - p)) := by
        unfold durationSub
        rw [if_pos (Nat.le_of_lt hg.2)]
      rw [if_pos hg, hsub]
      rfl
    · rw [if_neg hg]
      rfl

/-- C4 fails on the code: constructing a fixed-rate throttle with
`tps = 0` makes `wait_for_millis` saturate to `u64::MAX` (since
`1.0 / 0.0` is `+inf`), so the second `acquire` — performed here 1 ms
after the first — sleeps `u64::MAX` ms minus the elapsed 1 ms instead of
requesting no additional delay. -/
theorem tps_zero_second_acquire_blocks :
    ((Throttle.new_tps_throttle Unit 0).acquire () 0 0).bind
        (fun r => (r.1.acquire () 1000000 1000000).map Prod.snd) =
      some (Duration.fromMillis u64Max - 1000000) ∧
    0 < Duration.fromMillis u64Max - 1000000 := by
  constructor
  · rfl
  · decide

/-- C5: every branch of `acquire` stores the post-blocking clock reading
as `previous_invocation`; with a monotone clock (`now ≤ post`) the stored
timestamp never decreases, and the next call measures elapsed time from
the updated timestamp. -/
theorem acquire_updates_previous_invocation {TArg : Type}
    (t : Throttle TArg) (arg : TArg) (now post : Instant)
    (t1 : Throttle TArg) (slept : Duration) (hmono : now ≤ post)
    (h : t.acquire arg now post = some (t1, slept)) :
    t1.state = ThrottleState.Initialized post ∧
    (∀ p, t.state = ThrottleState.Initialized p → p ≤ now → p ≤ post) ∧
    ∀ now2, t1.elapsedSince now2 = some (now2 - post) := by
  have hshape := Throttle.acquire_result_shape t arg now post t1 slept h
  subst hshape
  exact ⟨rfl, fun p _ hpn => le_trans hpn hmono, fun now2 => rfl⟩

/-- Witness for C5 at concrete inputs (clock readings 2 then 5). -/
theorem acquire_updates_previous_invocation_witness :
    (Throttle.mk (fun (_ : Unit) _ => 0)
        (ThrottleState.Initialized 5)).state =
      ThrottleState.Initialized 5 :=
  (acquire_updates_previous_invocation
    (Throttle.new_variable_throttle (fun (_ : Unit) _ => 0)) () 2 5
    (Throttle.mk (fun (_ : Unit) _ => 0) (ThrottleState.Initialized 5)) 0
    (by decide) rfl).1

/-- C6: the state machine has exactly the two states; freshly constructed
throttles start `Uninitialized`, and after every successful `acquire` the
state is `Initialized` with the new timestamp — never `Uninitialized`
again. -/
theorem throttle_state_machine {TArg : Type} :
    (∀ s : ThrottleState, s = ThrottleState.Uninitialized ∨
      ∃ p, s = ThrottleState.Initialized p) ∧
    (∀ f : TArg → Duration → Duration,
      (Throttle.new_variable_throttle f).state =
        ThrottleState.Uninitialized) ∧
    ∀ (t : Throttle TArg) (arg : TArg) (now post : Instant)
      (t1 : Throttle TArg) (slept : Duration),
      t.acquire arg now post = some (t1, slept) →
      t1.state = ThrottleState.Initialized post ∧
      t1.state ≠ ThrottleState.Uninitialized := by
  refine ⟨?_, fun f => rfl, ?_⟩
  · intro s
    cases s with
    | Uninitialized => exact Or.inl rfl
    | Initialized p => exact Or.inr ⟨p, rfl⟩
  · intro t arg now post t1 slept h
    have hshape := Throttle.acquire_result_shape t arg now post t1 slept h
    subst hshape
    exact ⟨rfl, fun hcon => ThrottleState.noConfusion hcon⟩

/-- Witness for C6: a second `acquire` keeps the state `Initialized`. -/
theorem throttle_state_machine_witness :
    (Throttle.mk (fun (_ : Unit) _ => 0)
        (ThrottleState.Initialized 5)).state =
      ThrottleState.Initialized 5 ∧
    (Throttle.mk (fun (_ : Unit) _ => 0)
        (ThrottleState.Initialized 5)).state ≠
      ThrottleState.Uninitialized :=
  (@throttle_state_machine Unit).2.2
    (Throttle.mk (fun (_ : Unit) _ => 0) (ThrottleState.Initialized 2))
    () 3 5
    (Throttle.mk (fun (_ : Unit) _ => 0) (ThrottleState.Initialized 5))
    0 rfl

/-- Helper for C7: a throttle whose calculator constantly returns zero
runs any step list with all-zero sleeps and an unchanged calculator. -/
theorem Throttle.zero_delay_run {TArg : Type}
    (steps : List (TArg × Instant × Instant)) (t : Throttle TArg)
    (hf : ∀ a e, t.delay_calculator a e = 0) :
    ∃ t2, t.runAcquires steps = some (t2, List.map (fun _ => 0) steps) ∧
      ∀ a e, t2.delay_calculator a e = 0 := by
  induction steps generalizing t with
  | nil => exact ⟨t, rfl, hf⟩
  | cons step rest ih =>
    obtain ⟨arg, now, post⟩ := step
    have hstep : t.acquire arg now post =
        some (Throttle.mk t.delay_calculator
          (ThrottleState.Initialized post), 0) := by
      unfold Throttle.acquire
      rcases hs : t.state with _ | p
      · rfl
      · have hg : ¬ (t.delay_calculator arg (now - p) > Duration.fromSecs 0 ∧
            t.delay_calculator arg (now - p) > now - p) := by
          rw [hf arg (now - p)]
          rintro ⟨hcon, -⟩
          exact Nat.not_lt_zero _ hcon
        simp only
        rw [if_neg hg]
    obtain ⟨t2, hrun, hf2⟩ :=
      ih (Throttle.mk t.delay_calculator (ThrottleState.Initialized post)) hf
    refine ⟨t2, ?_, hf2⟩
    unfold Throttle.runAcquires
    rw [hstep]
    simp only [hrun]
    rfl

/-- C7: a throttle whose delay function always returns the zero duration
never sleeps and never panics, over any sequence of `acquire` calls of
any length and with any arguments. -/
theorem zero_delay_never_blocks {TArg : Type} (t : Throttle TArg)
    (steps : List (TArg × Instant × Instant))
    (hf : ∀ a e, t.delay_calculator a e = 0) :
    (t.runAcquires steps).map Prod.snd =
      some (List.map (fun _ => 0) steps) := by
  obtain ⟨t2, hrun, -⟩ := Throttle.zero_delay_run steps t hf
  rw [hrun]
  rfl

/-- Witness for C7: two zero-delay calls sleep `[0, 0]`. -/
theorem zero_delay_never_blocks_witness :
    ((Throttle.new_variable_throttle (fun (_ : Unit) _ => 0)).runAcquires
        [((), 0, 0), ((), 5, 7)]).map Prod.snd =
      some (List.map (fun _ => 0) [((), 0, 0), ((), 5, 7)]) :=
  zero_delay_never_blocks
    (Throttle.new_variable_throttle (fun (_ : Unit) _ => 0))
    [((), 0, 0), ((), 5, 7)] (fun _ _ => rfl)

/-- Helper: `acquire` never changes the delay calculator. -/
theorem Throttle.acquire_preserves_calculator {TArg : Type}
    (t t1 : Throttle TArg) (arg : TArg) (now post : Instant)
    (slept : Duration) (h : t.acquire arg now post = some (t1, slept)) :
    t1.delay_calculator = t.delay_calculator := by
  have hshape := Throttle.acquire_result_shape t arg now post t1 slept h
  rw [hshape]

/-- C8: for a positive rate whose interval does not saturate, the
fixed-rate constructor stores the constant interval `⌊1000 / tps⌋`
milliseconds (the `as u64` cast truncates), computed once at
construction; the stored calculator ignores both of its inputs, and no
`acquire` call recomputes or changes it.  The `f32` arithmetic is
idealized as exact rational arithmetic. -/
theorem new_tps_throttle_interval (TArg : Type) (tps : ℚ) (h0 : 0 < tps)
    (hsat : (⌊1000 / tps⌋).toNat ≤ u64Max) :
    (Throttle.new_tps_throttle TArg tps).delay_calculator =
      (fun _ _ => Duration.fromMillis (⌊1000 / tps⌋).toNat) ∧
    ∀ (t t1 : Throttle TArg) (arg : TArg) (now post : Instant)
      (slept : Duration),
      t.acquire arg now post = some (t1, slept) →
      t1.delay_calculator = t.delay_calculator := by
  constructor
  · have hq : (1 / tps) * 1000 = 1000 / tps := one_div_mul_eq_div tps 1000
    show (fun _ _ => Duration.fromMillis (tpsWaitMillis tps)) = _
    unfold tpsWaitMillis
    rw [if_neg (ne_of_gt h0), if_neg (lt_asymm h0), hq, min_eq_left hsat]
  · intro t t1 arg now post slept h
    exact Throttle.acquire_preserves_calculator t t1 arg now post slept h

/-- Witness for C8 at `tps = 10`: the stored interval is 100 ms. -/
theorem new_tps_throttle_interval_witness :
    (Throttle.new_tps_throttle Unit 10).delay_calculator =
      (fun _ _ => Duration.fromMillis (⌊1000 / (10 : ℚ)⌋).toNat) :=
  (new_tps_throttle_interval Unit 10 (by norm_num)
    (by norm_num [u64Max, Int.toNat_ofNat])).1

/-- C9: the fixed-rate constructor builds exactly the throttle the
generic constructor builds from a closure that ignores both of its inputs
and returns the constant interval, so every sequence of `acquire` calls
produces identical states and identical sleeps. -/
theorem new_tps_throttle_eq_variable (TArg : Type) (tps : ℚ) :
    Throttle.new_tps_throttle TArg tps =
      Throttle.new_variable_throttle
        (fun _ _ => Duration.fromMillis (tpsWaitMillis tps)) ∧
    ∀ steps : List (TArg × Instant × Instant),
      (Throttle.new_tps_throttle TArg tps).runAcquires steps =
        (Throttle.new_variable_throttle
          (fun _ _ => Duration.fromMillis (tpsWaitMillis tps))).runAcquires
          steps :=
  ⟨rfl, fun _ => rfl⟩

/-- C10: the delay calculator is never invoked on an `acquire` in state
`Uninitialized` — the traced invocation list is empty and the result does
not depend on the argument — and is invoked exactly once, on the argument
and the measured elapsed time, in state `Initialized`; the traced variant
projects to `acquire` itself. -/
theorem acquire_calculator_call_count {TArg : Type} (t : Throttle TArg)
    (arg : TArg) (now post : Instant) :
    (t.acquireTraced arg now post).map Prod.fst = t.acquire arg now post ∧
    (t.state = ThrottleState.Uninitialized →
      t.acquireTraced arg now post =
        some ((Throttle.mk t.delay_calculator
          (ThrottleState.Initialized post), 0), []) ∧
      ∀ arg2 : TArg, t.acquire arg now post = t.acquire arg2 now post) ∧
    ∀ p, t.state = ThrottleState.Initialized p →
      (t.acquireTraced arg now post).map Prod.snd =
        some [(arg, now - p)] := by
  unfold Throttle.acquire Throttle.acquireTraced
  rcases hs : t.state with _ | p
  · exact ⟨rfl, fun _ => ⟨rfl, fun _ => rfl⟩,
      fun q hcon => ThrottleState.noConfusion hcon⟩
  · refine ⟨?_, fun hcon => ThrottleState.noConfusion hcon, ?_⟩
    · simp only
      by_cases hg : t.delay_calculator arg (now - p) > Duration.fromSecs 0 ∧
          t.delay_calculator arg (now - p) > now - p
      · have hsub : durationSub (t.delay_calculator arg (now - p)) (now - p) =
            some (t.delay_calculator arg (now - p) - (now - p)) := by
          unfold durationSub
          rw [if_pos (Nat.le_of_lt hg.2)]
        rw [if_pos hg, if_pos hg, hsub]
        rfl
      · rw [if_neg hg, if_neg hg]
        rfl
    · intro q hq
      have hpq : p = q := by injection hq
      subst hpq
      simp only
      by_cases hg : t.delay_calculator arg (now - p) > Duration.fromSecs 0 ∧
          t.delay_calculator arg (now - p) > now - p
      · have hsub : durationSub (t.delay_calculator arg (now - p)) (now - p) =
            some (t.delay_calculator arg (now - p) - (now - p)) := by
          unfold durationSub
          rw [if_pos (Nat.le_of_lt hg.2)]
        rw [if_pos hg, hsub]
        rfl
      · rw [if_neg hg]
        rfl

/-- Witness for C10: one `Initialized`-state call invokes the calculator
exactly once, on the argument and the elapsed time `4 - 0`. -/
theorem acquire_calculator_call_count_witness :
    ((Throttle.mk (fun (_ : Unit) _ => 10)
        (ThrottleState.Initialized 0)).acquireTraced () 4 9).map Prod.snd =
      some [((), 4 - 0)] :=
  (acquire_calculator_call_count
    (Throttle.mk (fun (_ : Unit) _ => 10) (ThrottleState.Initialized 0))
    () 4 9).2.2 0 rfl
